import Mathlib

/-!
Shallow embedding of the expense settlement engine of the `twofold` trip app.

The engine is the `summary` computation of the budget screen
(src/unnamed/part_002, lines 162-209).  It computes, from the list of
expenses of a trip:
  * `totals`    : total spend per currency (all expenses);
  * `perPerson` : total spend per payer per currency (all expenses);
  * `debts`     : per-currency equalizing transfers over `equal`-split
    expenses for the fixed participant list `PEOPLE = ['zeynep', 'bartu']`.

JavaScript `Record<string, number>` objects are embedded as association
lists with unique keys: `obj[k] = (obj[k] || 0) + v` updates the (unique)
entry for `k` in place when present and appends `(k, v)` otherwise, and a
read `obj[k] || 0` returns the stored value or `0`.  The JS `Map` used to
group expenses by currency is embedded the same way, with list buckets.
Number amounts are embedded as rationals `ℚ`, the epsilon of the source
(`0.01`) as `1/100`.
-/

namespace Twofold

/-- Split mode of an expense: `'equal' | 'solo'` (src/lib/types.ts). -/
inductive SplitMode where
  | equal : SplitMode
  | solo : SplitMode
deriving DecidableEq, Repr

/-- The `Expense` record of src/lib/types.ts.  `amount : number` is embedded
as `ℚ`; `category : string | null` as `Option String`. -/
structure Expense where
  id : String
  trip_id : String
  title : String
  amount : ℚ
  currency : String
  category : Option String
  paid_by : String
  split : SplitMode
  added_by : String
  created_at : String
deriving DecidableEq, Repr

/-- The hardcoded participant list `PEOPLE = ['zeynep', 'bartu']`
(src/unnamed/part_002, line 125). -/
def PEOPLE : List String := ["zeynep", "bartu"]

/-- The tolerance used in the debt loop: the source compares
`diff < -0.01`. -/
def epsilon : ℚ := 1 / 100

/-- Embedding of a JS `Record<string, number>`: an association list whose
keys are unique by construction. -/
abbrev AmountRec := List (String × ℚ)

/-- Read `r[k] || 0`: the value stored at the first entry for `k`, else 0. -/
def AmountRec.get : AmountRec → String → ℚ
  | [], _ => 0
  | (k', v) :: r, k => if k' = k then v else AmountRec.get r k

/-- Update `r[k] = (r[k] || 0) + v`: bump the first entry for `k` in place
when present, append `(k, v)` otherwise.  On unique-key records this is
exactly the JS object update. -/
def AmountRec.add : AmountRec → String → ℚ → AmountRec
  | [], k, v => [(k, v)]
  | (k', v') :: r, k, v =>
      if k' = k then (k', v' + v) :: r else (k', v') :: AmountRec.add r k v

/-- Embedding of the nested `Record<string, Record<string, number>>`
(`perPerson` in the source). -/
abbrev PersonRec := List (String × AmountRec)

/-- Read `m[p][c]`, defaulting a missing person or currency to 0. -/
def PersonRec.get2 : PersonRec → String → String → ℚ
  | [], _, _ => 0
  | (p', r) :: m, p, c => if p' = p then AmountRec.get r c else PersonRec.get2 m p c

/-- Update `if (!m[p]) m[p] = {}; m[p][c] = (m[p][c] || 0) + v`
(src/unnamed/part_002, lines 170-172). -/
def PersonRec.add : PersonRec → String → String → ℚ → PersonRec
  | [], p, c, v => [(p, AmountRec.add [] c v)]
  | (p', r) :: m, p, c, v =>
      if p' = p then (p', AmountRec.add r c v) :: m
      else (p', r) :: PersonRec.add m p c v

/-- The totals pass of `summary` (src/unnamed/part_002, lines 163-173): one
sweep over all expenses accumulating `totals[e.currency] += e.amount` and
`perPerson[e.paid_by][e.currency] += e.amount`, with no filtering by split
mode.  This is the `computeTotals` operation of the spec. -/
def computeTotals (expenses : List Expense) : AmountRec × PersonRec :=
  expenses.foldl
    (fun acc e =>
      (AmountRec.add acc.1 e.currency e.amount,
       PersonRec.add acc.2 e.paid_by e.currency e.amount))
    ([], [])

/-- Append expense `e` to the bucket of currency `c` in the grouping map,
creating the bucket at the end when absent — the embedding of
`if (!byCurrency.has(...)) byCurrency.set(..., []); byCurrency.get(...)!.push(e)`
(src/unnamed/part_002, lines 189-193; JS `Map` preserves insertion order). -/
def addToGroup : List (String × List Expense) → String → Expense → List (String × List Expense)
  | [], c, e => [(c, [e])]
  | (c', items) :: gs, c, e =>
      if c' = c then (c', items ++ [e]) :: gs
      else (c', items) :: addToGroup gs c e

/-- Group the `equal`-split expenses by currency, skipping `solo` entries
(src/unnamed/part_002, lines 188-193). -/
def groupByCurrency (expenses : List Expense) : List (String × List Expense) :=
  expenses.foldl
    (fun gs e => if e.split = SplitMode.equal then addToGroup gs e.currency e else gs)
    []

/-- Look up the bucket of currency `c`, returning `[]` when absent. -/
def bucketGet : List (String × List Expense) → String → List Expense
  | [], _ => []
  | (c', items) :: gs, c => if c' = c then items else bucketGet gs c

/-- The `paid` record initialised to 0 for every participant:
`PEOPLE.forEach((p) => (paid[p] = 0))` generalised to a participant list. -/
def paidInit (ps : List String) : AmountRec := ps.map (fun p => (p, 0))

/-- The `paid` record of one currency group after accumulating
`paid[e.paid_by] = (paid[e.paid_by] || 0) + e.amount` over its items
(src/unnamed/part_002, lines 196-200). -/
def paidMap (ps : List String) (items : List Expense) : AmountRec :=
  items.foldl (fun paid e => AmountRec.add paid e.paid_by e.amount) (paidInit ps)

/-- A debt tuple `{from, to, amount, currency}` (src/unnamed/part_002,
line 186; the field `from` is a Lean keyword and is embedded as `dFrom`,
`to` as `dTo`). -/
structure Debt where
  dFrom : String
  dTo : String
  amount : ℚ
  currency : String
deriving DecidableEq, Repr

/-- The debt loop of one currency group (src/unnamed/part_002, lines
195-205), generalised over the participant list `ps` (the source hardcodes
`ps = PEOPLE`): for each participant in order, when
`diff = paid[person] - perHead < -0.01`, find the first other participant
with `paid > perHead` and emit `{from, to, amount: |diff|, currency}`;
when no creditor is found the debt is silently dropped.  The
`forEach`/`push` loop is embedded as a `flatMap` of zero-or-one-element
lists in participant order. -/
def debtsForGroupWith (ps : List String) (cur : String) (items : List Expense) : List Debt :=
  let paid := paidMap ps items
  let totalShared := (items.map Expense.amount).sum
  let perHead := totalShared / (ps.length : ℚ)
  ps.flatMap (fun person =>
    let diff := AmountRec.get paid person - perHead
    if diff < -epsilon then
      match ps.find? (fun p => p != person && decide (AmountRec.get paid p > perHead)) with
      | some creditor => [{ dFrom := person, dTo := creditor, amount := |diff|, currency := cur }]
      | none => []
    else [])

/-- The `computeDebts` operation generalised over the participant list:
group the `equal`-split expenses by currency and concatenate the per-group
debts in currency-map iteration order (src/unnamed/part_002, lines
186-206). -/
def computeDebtsWith (ps : List String) (expenses : List Expense) : List Debt :=
  (groupByCurrency expenses).flatMap (fun g => debtsForGroupWith ps g.1 g.2)

/-- The debt computation as shipped, with the hardcoded participant list
`PEOPLE`. -/
def computeDebts (expenses : List Expense) : List Debt :=
  computeDebtsWith PEOPLE expenses

/-- The full result of the `summary` memo: `{ totals, perPerson, debts }`
(src/unnamed/part_002, line 208). -/
structure Summary where
  totals : AmountRec
  perPerson : PersonRec
  debts : List Debt
deriving DecidableEq, Repr

/-- The `summary` computation (src/unnamed/part_002, lines 162-209). -/
def summary (expenses : List Expense) : Summary :=
  { totals := (computeTotals expenses).1
    perPerson := (computeTotals expenses).2
    debts := computeDebts expenses }

/-- Sum of the amounts expense list `l` (`items.reduce((s, e) => s + e.amount, 0)`). -/
def amountSum (l : List Expense) : ℚ := (l.map Expense.amount).sum

/-- The `equal`-split expenses of currency `c`, in input order. -/
def eqFilter (c : String) (es : List Expense) : List Expense :=
  es.filter (fun e => e.split == SplitMode.equal && e.currency == c)

/-- Total paid by person `p` among the expenses of list `l`. -/
def paidSum (p : String) (l : List Expense) : ℚ :=
  ((l.filter (fun e => e.paid_by == p)).map Expense.amount).sum

/-- The per-head share of currency `c` over a whole expense list: the total
of its `equal`-split expenses in `c`, divided by the number of
participants. -/
def perHeadOf (c : String) (es : List Expense) : ℚ :=
  amountSum (eqFilter c es) / (PEOPLE.length : ℚ)

/-- Convenience constructor for the expense scenarios of the spec. -/
def mkExp (amount : ℚ) (currency : String) (paid_by : String) (split : SplitMode) : Expense :=
  { id := "", trip_id := "", title := "", amount := amount, currency := currency,
    category := none, paid_by := paid_by, split := split, added_by := "", created_at := "" }

/-- Scenario A first expense: 100 TRY paid by zeynep, equal split. -/
def expZ : Expense := mkExp 100 "TRY" "zeynep" SplitMode.equal

/-- Scenario A second expense: 0 TRY paid by bartu, equal split. -/
def expB : Expense := mkExp 0 "TRY" "bartu" SplitMode.equal

/-- The expense list of Scenario A of the spec. -/
def esA : List Expense := [expZ, expB]

/-- Scenario B expense: 40 EUR paid by zeynep, solo split. -/
def expSolo : Expense := mkExp 40 "EUR" "zeynep" SplitMode.solo

/-- An equal-split USD expense used to exercise currency isolation. -/
def expUSD : Expense := mkExp 5 "USD" "zeynep" SplitMode.equal

/-! Basic lemmas about the record embedding. -/

theorem AmountRec.get_add (r : AmountRec) (k kq : String) (v : ℚ) :
    AmountRec.get (AmountRec.add r k v) kq =
      if kq = k then AmountRec.get r kq + v else AmountRec.get r kq := by
  induction r with
  | nil =>
      simp only [AmountRec.add, AmountRec.get]
      by_cases h : kq = k
      · simp [h]
      · simp [h, Ne.symm h]
  | cons hd t ih =>
      obtain ⟨a, b⟩ := hd
      simp only [AmountRec.add]
      by_cases hak : a = k
      · simp only [if_pos hak, AmountRec.get]
        by_cases haq : a = kq
        · have h1 : kq = k := haq.symm.trans hak
          simp [haq, h1]
        · have h1 : ¬ kq = k := fun h => haq (hak.trans h.symm)
          simp [haq, h1]
      · simp only [if_neg hak, AmountRec.get]
        by_cases haq : a = kq
        · have h1 : ¬ kq = k := fun h => hak (haq.trans h)
          simp [haq, h1]
        · simp [haq, ih]

theorem PersonRec.get2_add (m : PersonRec) (p c pq cq : String) (v : ℚ) :
    PersonRec.get2 (PersonRec.add m p c v) pq cq =
      if pq = p ∧ cq = c then PersonRec.get2 m pq cq + v else PersonRec.get2 m pq cq := by
  induction m with
  | nil =>
      simp only [PersonRec.add, PersonRec.get2]
      by_cases hp : pq = p
      · simp only [hp, if_pos rfl, AmountRec.get_add, AmountRec.get]
        by_cases hc : cq = c
        · simp [hc]
        · have h2 : ¬ c = cq := fun h => hc h.symm
          simp [hc, h2]
      · simp [hp, Ne.symm hp]
  | cons hd t ih =>
      obtain ⟨a, r⟩ := hd
      simp only [PersonRec.add]
      by_cases hap : a = p
      · simp only [if_pos hap, PersonRec.get2]
        by_cases haq : a = pq
        · have hpq : pq = p := haq.symm.trans hap
          simp [haq, hpq, AmountRec.get_add]
        · have h1 : ¬ (pq = p ∧ cq = c) := fun hh => haq (hap.trans hh.1.symm)
          simp [haq, h1]
      · simp only [if_neg hap, PersonRec.get2]
        by_cases haq : a = pq
        · have h1 : ¬ (pq = p ∧ cq = c) := fun hh => hap (haq.trans hh.1)
          simp [haq, h1]
        · simp [haq, ih]

theorem paidInit_get (ps : List String) (p : String) :
    AmountRec.get (paidInit ps) p = 0 := by
  induction ps with
  | nil => simp [paidInit, AmountRec.get]
  | cons q t ih =>
      simp only [paidInit, List.map_cons, AmountRec.get]
      split
      · rfl
      · simpa [paidInit] using ih

theorem paidMap_get (ps : List String) (items : List Expense) (p : String) :
    AmountRec.get (paidMap ps items) p = paidSum p items := by
  suffices h : ∀ r : AmountRec,
      AmountRec.get
        (items.foldl (fun paid e => AmountRec.add paid e.paid_by e.amount) r) p
        = AmountRec.get r p + paidSum p items by
    simpa [paidMap, paidInit_get] using h (paidInit ps)
  induction items with
  | nil => intro r; simp [paidSum]
  | cons e t ih =>
      intro r
      simp only [List.foldl_cons]
      rw [ih]
      by_cases h : e.paid_by = p
      · simp only [AmountRec.get_add, if_pos h.symm, paidSum, List.filter_cons, h,
          beq_self_eq_true, if_pos, List.map_cons, List.sum_cons]
        ring
      · have hb : ¬ (e.paid_by == p) = true := by simp [h]
        have hne : ¬ p = e.paid_by := fun hh => h hh.symm
        simp [AmountRec.get_add, hne, paidSum, List.filter_cons, hb]

/-! Lemmas about `computeTotals`. -/

theorem computeTotals_totals_get (es : List Expense) (c : String) :
    AmountRec.get (computeTotals es).1 c
      = amountSum (es.filter (fun e => e.currency == c)) := by
  suffices h : ∀ acc : AmountRec × PersonRec,
      AmountRec.get
        (es.foldl (fun acc e =>
          (AmountRec.add acc.1 e.currency e.amount,
           PersonRec.add acc.2 e.paid_by e.currency e.amount)) acc).1 c
        = AmountRec.get acc.1 c + amountSum (es.filter (fun e => e.currency == c)) by
    simpa [computeTotals, AmountRec.get] using h ([], [])
  induction es with
  | nil => intro acc; simp [amountSum]
  | cons e t ih =>
      intro acc
      simp only [List.foldl_cons]
      rw [ih]
      by_cases h : e.currency = c
      · simp only [AmountRec.get_add, if_pos h.symm, List.filter_cons, h,
          beq_self_eq_true, if_pos, amountSum, List.map_cons, List.sum_cons]
        ring
      · have hb : ¬ (e.currency == c) = true := by simp [h]
        have hne : ¬ c = e.currency := fun hh => h hh.symm
        simp [AmountRec.get_add, hne, List.filter_cons, hb]

theorem computeTotals_perPerson_get2 (es : List Expense) (p c : String) :
    PersonRec.get2 (computeTotals es).2 p c
      = amountSum (es.filter (fun e => e.paid_by == p && e.currency == c)) := by
  suffices h : ∀ acc : AmountRec × PersonRec,
      PersonRec.get2
        (es.foldl (fun acc e =>
          (AmountRec.add acc.1 e.currency e.amount,
           PersonRec.add acc.2 e.paid_by e.currency e.amount)) acc).2 p c
        = PersonRec.get2 acc.2 p c
          + amountSum (es.filter (fun e => e.paid_by == p && e.currency == c)) by
    simpa [computeTotals, PersonRec.get2] using h ([], [])
  induction es with
  | nil => intro acc; simp [amountSum]
  | cons e t ih =>
      intro acc
      simp only [List.foldl_cons]
      rw [ih]
      by_cases hp : e.paid_by = p
      · by_cases hc : e.currency = c
        · have hcond : p = e.paid_by ∧ c = e.currency := ⟨hp.symm, hc.symm⟩
          have hb : ((e.paid_by == p) && (e.currency == c)) = true := by simp [hp, hc]
          rw [PersonRec.get2_add, if_pos hcond, List.filter_cons, if_pos hb]
          simp only [amountSum, List.map_cons, List.sum_cons]
          ring
        · have hb : ¬ ((e.paid_by == p) && (e.currency == c)) = true := by simp [hc]
          have hcond : ¬ (p = e.paid_by ∧ c = e.currency) := fun hh => hc hh.2.symm
          simp [PersonRec.get2_add, hcond, List.filter_cons, hb]
      · have hb : ¬ ((e.paid_by == p) && (e.currency == c)) = true := by simp [hp]
        have hcond : ¬ (p = e.paid_by ∧ c = e.currency) := fun hh => hp hh.1.symm
        simp [PersonRec.get2_add, hcond, List.filter_cons, hb]

/-! Lemmas about the currency grouping. -/

theorem bucketGet_addToGroup (gs : List (String × List Expense)) (c cq : String) (e : Expense) :
    bucketGet (addToGroup gs c e) cq =
      if c = cq then bucketGet gs cq ++ [e] else bucketGet gs cq := by
  induction gs with
  | nil =>
      simp only [addToGroup, bucketGet]
      by_cases h : c = cq <;> simp [h]
  | cons g t ih =>
      obtain ⟨a, items⟩ := g
      simp only [addToGroup]
      by_cases hac : a = c
      · simp only [if_pos hac, bucketGet]
        by_cases haq : a = cq
        · have h1 : c = cq := hac.symm.trans haq
          simp [haq, h1]
        · have h1 : ¬ c = cq := fun h => haq (hac.trans h)
          simp [haq, h1]
      · simp only [if_neg hac, bucketGet]
        by_cases haq : a = cq
        · have h1 : ¬ c = cq := fun h => hac (haq.trans h.symm)
          simp [haq, h1]
        · simp [haq, ih]

theorem bucketGet_groupByCurrency (es : List Expense) (c : String) :
    bucketGet (groupByCurrency es) c = eqFilter c es := by
  suffices h : ∀ gs : List (String × List Expense),
      bucketGet
        (es.foldl
          (fun gs e => if e.split = SplitMode.equal then addToGroup gs e.currency e else gs)
          gs) c
        = bucketGet gs c ++ eqFilter c es by
    simpa [groupByCurrency, bucketGet] using h []
  induction es with
  | nil => intro gs; simp [eqFilter]
  | cons e t ih =>
      intro gs
      simp only [List.foldl_cons]
      by_cases hs : e.split = SplitMode.equal
      · rw [if_pos hs, ih]
        by_cases hc : e.currency = c
        · have hb : ((e.split == SplitMode.equal) && (e.currency == c)) = true := by
            simp [hs, hc]
          rw [bucketGet_addToGroup, if_pos hc]
          simp only [eqFilter, List.filter_cons, if_pos hb]
          simp
        · have hb : ¬ ((e.split == SplitMode.equal) && (e.currency == c)) = true := by
            simp [hc]
          rw [bucketGet_addToGroup, if_neg hc]
          simp only [eqFilter, List.filter_cons, if_neg hb]
      · rw [if_neg hs, ih]
        have hb : ¬ ((e.split == SplitMode.equal) && (e.currency == c)) = true := by
          simp [hs]
        simp only [eqFilter, List.filter_cons, if_neg hb]

theorem keys_addToGroup (gs : List (String × List Expense)) (c : String) (e : Expense) :
    (addToGroup gs c e).map Prod.fst =
      if c ∈ gs.map Prod.fst then gs.map Prod.fst else gs.map Prod.fst ++ [c] := by
  induction gs with
  | nil => simp [addToGroup]
  | cons g t ih =>
      obtain ⟨a, items⟩ := g
      simp only [addToGroup, List.map_cons]
      by_cases hac : a = c
      · simp [hac]
      · have h1 : ¬ c = a := fun h => hac h.symm
        by_cases hm : c ∈ t.map Prod.fst
        · simp [hac, ih, hm, h1]
        · simp [hac, ih, hm, h1]

theorem nodup_keys_groupByCurrency (es : List Expense) :
    ((groupByCurrency es).map Prod.fst).Nodup := by
  suffices h : ∀ gs : List (String × List Expense), (gs.map Prod.fst).Nodup →
      ((es.foldl
        (fun gs e => if e.split = SplitMode.equal then addToGroup gs e.currency e else gs)
        gs).map Prod.fst).Nodup by
    simpa [groupByCurrency] using h [] (by simp)
  induction es with
  | nil => intro gs h; simpa using h
  | cons e t ih =>
      intro gs h
      simp only [List.foldl_cons]
      by_cases hs : e.split = SplitMode.equal
      · rw [if_pos hs]
        refine ih _ ?_
        rw [keys_addToGroup]
        by_cases hm : e.currency ∈ gs.map Prod.fst
        · simpa [hm] using h
        · simp only [hm, if_neg, if_false]
          simp [List.nodup_append, h, List.disjoint_singleton, hm]
      · rw [if_neg hs]; exact ih _ h

/-! Lemmas about the per-group debt computation. -/

theorem flatMap_eq_nil_of_forall {α β : Type} (l : List α) (f : α → List β)
    (h : ∀ x ∈ l, f x = []) : l.flatMap f = [] := by
  induction l with
  | nil => rfl
  | cons a t ih =>
      rw [List.flatMap_cons, h a (List.mem_cons_self a t), List.nil_append]
      exact ih (fun x hx => h x (List.mem_cons_of_mem a hx))

theorem debtsForGroupWith_nil (ps : List String) (cur : String) :
    debtsForGroupWith ps cur [] = [] := by
  apply flatMap_eq_nil_of_forall
  intro p _
  have h0 : AmountRec.get (paidMap ps []) p = 0 := by
    simp [paidMap, paidInit_get]
  simp only [List.map_nil, List.sum_nil, zero_div, h0, sub_zero]
  rw [if_neg]
  norm_num [epsilon]

theorem mem_debtsForGroupWith {ps : List String} {cur : String} {items : List Expense}
    {d : Debt} (hd : d ∈ debtsForGroupWith ps cur items) :
    d.currency = cur ∧ d.dFrom ∈ ps ∧ d.dTo ∈ ps ∧ d.dTo ≠ d.dFrom ∧
    paidSum d.dFrom items - amountSum items / (ps.length : ℚ) < -epsilon ∧
    d.amount = |paidSum d.dFrom items - amountSum items / (ps.length : ℚ)| ∧
    paidSum d.dTo items > amountSum items / (ps.length : ℚ) := by
  simp only [debtsForGroupWith, List.mem_flatMap] at hd
  obtain ⟨person, hperson, hmem⟩ := hd
  by_cases hlt :
      AmountRec.get (paidMap ps items) person
        - (items.map Expense.amount).sum / (ps.length : ℚ) < -epsilon
  · rw [if_pos hlt] at hmem
    rcases hfind : ps.find? (fun p => p != person &&
        decide (AmountRec.get (paidMap ps items) p
          > (items.map Expense.amount).sum / (ps.length : ℚ))) with _ | creditor
    · rw [hfind] at hmem; simp at hmem
    · rw [hfind] at hmem
      simp only [List.mem_singleton] at hmem
      have hpred := List.find?_some hfind
      have hcmem := List.mem_of_find?_eq_some hfind
      simp only [Bool.and_eq_true, bne_iff_ne, decide_eq_true_eq] at hpred
      subst hmem
      refine ⟨rfl, hperson, hcmem, hpred.1, ?_, ?_, ?_⟩
      · simpa [paidMap_get, amountSum] using hlt
      · simp [paidMap_get, amountSum]
      · simpa [paidMap_get, amountSum] using hpred.2
  · rw [if_neg hlt] at hmem
    simp at hmem

theorem filter_flatMap {α β : Type} (l : List α) (f : α → List β) (p : β → Bool) :
    (l.flatMap f).filter p = l.flatMap (fun x => (f x).filter p) := by
  induction l with
  | nil => rfl
  | cons a t ih => simp [List.flatMap_cons, List.filter_append, ih]

theorem debtsForGroupWith_filter_currency (ps : List String) (c B : String)
    (items : List Expense) :
    (debtsForGroupWith ps c items).filter (fun d => d.currency == B)
      = if c = B then debtsForGroupWith ps c items else [] := by
  by_cases h : c = B
  · rw [if_pos h]
    rw [List.filter_eq_self]
    intro d hd
    have h1 := (mem_debtsForGroupWith hd).1
    simp [h1, h]
  · rw [if_neg h]
    rw [List.filter_eq_nil_iff]
    intro d hd
    have h1 := (mem_debtsForGroupWith hd).1
    simp [h1, h]

theorem computeDebtsWith_filter_currency (ps : List String) (es : List Expense) (B : String) :
    (computeDebtsWith ps es).filter (fun d => d.currency == B)
      = debtsForGroupWith ps B (eqFilter B es) := by
  rw [computeDebtsWith, filter_flatMap, ← bucketGet_groupByCurrency es B]
  have hnd := nodup_keys_groupByCurrency es
  revert hnd
  generalize groupByCurrency es = gs
  induction gs with
  | nil => intro _; simp [bucketGet, debtsForGroupWith_nil]
  | cons g t ih =>
      intro hnd
      obtain ⟨c, items⟩ := g
      simp only [List.map_cons, List.nodup_cons] at hnd
      have ih2 := ih hnd.2
      simp only [debtsForGroupWith_filter_currency] at ih2
      simp only [List.flatMap_cons, debtsForGroupWith_filter_currency, bucketGet]
      by_cases h : c = B
      · rw [if_pos h, if_pos h]
        have hnil : t.flatMap
            (fun x => if x.1 = B then debtsForGroupWith ps x.1 x.2 else []) = [] := by
          apply flatMap_eq_nil_of_forall
          intro g hg
          rw [if_neg]
          intro hEq
          apply hnd.1
          have hm : g.1 ∈ t.map Prod.fst := List.mem_map_of_mem Prod.fst hg
          rwa [hEq, ← h] at hm
        rw [hnil, List.append_nil, h]
      · rw [if_neg h, if_neg h, List.nil_append]
        exact ih2

theorem mem_computeDebtsWith_iff (ps : List String) (es : List Expense) (d : Debt) :
    d ∈ computeDebtsWith ps es ↔ d ∈ debtsForGroupWith ps d.currency (eqFilter d.currency es) := by
  constructor
  · intro h
    have h2 : d ∈ (computeDebtsWith ps es).filter (fun x => x.currency == d.currency) :=
      List.mem_filter.mpr ⟨h, by simp⟩
    rwa [computeDebtsWith_filter_currency] at h2
  · intro h
    have h2 : d ∈ (computeDebtsWith ps es).filter (fun x => x.currency == d.currency) := by
      rw [computeDebtsWith_filter_currency]; exact h
    exact (List.mem_filter.mp h2).1

theorem debtsForGroupWith_congr (ps : List String) (cur : String) {i1 i2 : List Expense}
    (hpaid : ∀ p, paidSum p i1 = paidSum p i2) (hsum : amountSum i1 = amountSum i2) :
    debtsForGroupWith ps cur i1 = debtsForGroupWith ps cur i2 := by
  have hsum2 : (i1.map Expense.amount).sum = (i2.map Expense.amount).sum := hsum
  simp only [debtsForGroupWith, paidMap_get]
  rw [hsum2]
  refine congrArg (List.flatMap ps) (funext fun person => ?_)
  have hfun : (fun p => p != person &&
        decide (paidSum p i1 > (i2.map Expense.amount).sum / (ps.length : ℚ)))
      = (fun p => p != person &&
        decide (paidSum p i2 > (i2.map Expense.amount).sum / (ps.length : ℚ))) := by
    funext p; rw [hpaid p]
  rw [hpaid person, hfun]

/-! Lemmas about the hardcoded two-person participant set. -/

theorem epsilon_pos : 0 < epsilon := by norm_num [epsilon]

theorem perHeadOf_eq (c : String) (es : List Expense) :
    perHeadOf c es = amountSum (eqFilter c es) / 2 := by
  norm_num [perHeadOf, PEOPLE]

theorem mem_of_mem_eqFilter {c : String} {es : List Expense} {e : Expense}
    (h : e ∈ eqFilter c es) : e ∈ es :=
  List.mem_of_mem_filter h

theorem paidSum_split (items : List Expense) (h : ∀ e ∈ items, e.paid_by ∈ PEOPLE) :
    paidSum "zeynep" items + paidSum "bartu" items = amountSum items := by
  induction items with
  | nil => simp [paidSum, amountSum]
  | cons e t ih =>
      have he := h e (List.mem_cons_self e t)
      have ht : ∀ x ∈ t, x.paid_by ∈ PEOPLE := fun x hx => h x (List.mem_cons_of_mem e hx)
      simp only [PEOPLE, List.mem_cons, List.not_mem_nil, or_false] at he
      have hiht := ih ht
      rcases he with he | he
      · have hb1 : (e.paid_by == "zeynep") = true := by simp [he]
        have hb2 : ¬ (e.paid_by == "bartu") = true := by simp [he]
        simp only [paidSum, amountSum, List.filter_cons, if_pos hb1, if_neg hb2,
          List.map_cons, List.sum_cons] at hiht ⊢
        linarith
      · have hb1 : ¬ (e.paid_by == "zeynep") = true := by simp [he]
        have hb2 : (e.paid_by == "bartu") = true := by simp [he]
        simp only [paidSum, amountSum, List.filter_cons, if_pos hb2, if_neg hb1,
          List.map_cons, List.sum_cons] at hiht ⊢
        linarith

theorem dfg_PEOPLE_eq (c : String) (items : List Expense) :
    debtsForGroupWith PEOPLE c items =
      (if paidSum "zeynep" items - amountSum items / 2 < -epsilon then
        if amountSum items / 2 < paidSum "bartu" items then
          [{ dFrom := "zeynep", dTo := "bartu",
             amount := |paidSum "zeynep" items - amountSum items / 2|, currency := c }]
        else []
      else []) ++
      (if paidSum "bartu" items - amountSum items / 2 < -epsilon then
        if amountSum items / 2 < paidSum "zeynep" items then
          [{ dFrom := "bartu", dTo := "zeynep",
             amount := |paidSum "bartu" items - amountSum items / 2|, currency := c }]
        else []
      else []) := by
  have hAS : (items.map Expense.amount).sum = amountSum items := rfl
  by_cases hz : paidSum "zeynep" items - amountSum items / 2 < -epsilon <;>
  by_cases hb : paidSum "bartu" items - amountSum items / 2 < -epsilon <;>
  by_cases hzb : amountSum items / 2 < paidSum "bartu" items <;>
  by_cases hbz : amountSum items / 2 < paidSum "zeynep" items <;>
  simp [debtsForGroupWith, paidMap_get, PEOPLE, List.find?, hAS, hz, hb, hzb, hbz]

/-! Lemmas about solo expenses. -/

theorem groupByCurrency_insert_solo (e : Expense) (he : e.split = SplitMode.solo)
    (es1 es2 : List Expense) :
    groupByCurrency (es1 ++ e :: es2) = groupByCurrency (es1 ++ es2) := by
  have hne : ¬ e.split = SplitMode.equal := by rw [he]; simp
  simp only [groupByCurrency, List.foldl_append, List.foldl_cons, if_neg hne]

theorem groupByCurrency_all_solo (es : List Expense)
    (h : ∀ x ∈ es, x.split = SplitMode.solo) : groupByCurrency es = [] := by
  suffices hh : ∀ t : List Expense, (∀ x ∈ t, x.split = SplitMode.solo) →
      ∀ gs, t.foldl
        (fun gs e => if e.split = SplitMode.equal then addToGroup gs e.currency e else gs) gs
        = gs by
    simpa [groupByCurrency] using hh es h []
  intro t
  induction t with
  | nil => intro _ gs; rfl
  | cons e t2 ih =>
      intro ht gs
      have hne : ¬ e.split = SplitMode.equal := by
        rw [ht e (List.mem_cons_self e t2)]
        simp
      simp only [List.foldl_cons, if_neg hne]
      exact ih (fun x hx => ht x (List.mem_cons_of_mem e hx)) gs

/-- Every debt emitted by `computeDebts` has its debtor and creditor drawn from
`PEOPLE`, distinct parties, a strictly positive amount, and a debtor whose paid
total undercuts the per-head share by more than the epsilon tolerance. -/
theorem mem_computeDebts_struct {es : List Expense} {d : Debt}
    (hd : d ∈ computeDebts es) :
    d.dFrom ∈ PEOPLE ∧ d.dTo ∈ PEOPLE ∧ d.dTo ≠ d.dFrom ∧ 0 < d.amount ∧
    paidSum d.dFrom (eqFilter d.currency es) - perHeadOf d.currency es < -epsilon ∧
    d.amount = |paidSum d.dFrom (eqFilter d.currency es) - perHeadOf d.currency es| := by
  rw [computeDebts, mem_computeDebtsWith_iff] at hd
  have h := mem_debtsForGroupWith hd
  obtain ⟨-, hfrom, hto, hne, hlt, hamt, -⟩ := h
  have hph : perHeadOf d.currency es
      = amountSum (eqFilter d.currency es) / (PEOPLE.length : ℚ) := rfl
  refine ⟨hfrom, hto, hne, ?_, ?_, ?_⟩
  · rw [hamt]
    have hneg : paidSum d.dFrom (eqFilter d.currency es)
        - amountSum (eqFilter d.currency es) / (PEOPLE.length : ℚ) < 0 :=
      lt_trans hlt (by norm_num [epsilon])
    exact abs_pos.mpr (ne_of_lt hneg)
  · rw [hph]; exact hlt
  · rw [hph]; exact hamt

/-! The claims. -/

/-- C1: for every expense list and currency, the sum of debt amounts over
debts in that currency whose debtor is a participant equals the sum over
debts in that currency whose creditor is a participant — exactly, hence
within the epsilon tolerance of 0.01. -/
theorem C1_conservation (es : List Expense) (c : String) :
    (((computeDebts es).filter
        (fun d => d.currency == c && decide (d.dFrom ∈ PEOPLE))).map Debt.amount).sum
      = (((computeDebts es).filter
        (fun d => d.currency == c && decide (d.dTo ∈ PEOPLE))).map Debt.amount).sum := by
  have hcong :
      List.filter (fun d => d.currency == c && decide (d.dFrom ∈ PEOPLE)) (computeDebts es)
        = List.filter (fun d => d.currency == c && decide (d.dTo ∈ PEOPLE))
            (computeDebts es) := by
    apply List.filter_congr
    intro d hd
    have h := mem_computeDebts_struct hd
    simp [h.1, h.2.1]
  rw [hcong]

/-- C2 counterexample: called with an empty participant list, the
(participant-generalised) debt computation does not reject: it silently
returns the computed zero-debt result `[]` even though a nonzero equal-split
expense is present. -/
theorem C2_counterexample : computeDebtsWith [] [expZ] = [] := by
  norm_num [computeDebtsWith, groupByCurrency, addToGroup, debtsForGroupWith, expZ, mkExp]

/-- C2 amended: the engine never fails fast on an empty participant set —
with zero participants it returns the empty (zero-debt) list for every
input; in the shipped code the participant set is the hardcoded two-element
constant `PEOPLE`, so the empty case cannot arise. -/
theorem C2_empty_participants_zero_debts :
    (∀ es : List Expense, computeDebtsWith [] es = []) ∧ PEOPLE.length = 2 := by
  constructor
  · intro es
    apply flatMap_eq_nil_of_forall
    intro g _
    rfl
  · rfl

/-- C3: `computeTotals` maps each currency to the sum of `amount` over all
expenses in that currency, and each payer and currency to the sum of
`amount` that payer paid in that currency, with no filtering by split
mode. -/
theorem C3_computeTotals_sums (es : List Expense) (c p : String) :
    AmountRec.get (computeTotals es).1 c
      = amountSum (es.filter (fun e => e.currency == c)) ∧
    PersonRec.get2 (computeTotals es).2 p c
      = amountSum (es.filter (fun e => e.paid_by == p && e.currency == c)) :=
  ⟨computeTotals_totals_get es c, computeTotals_perPerson_get2 es p c⟩

/-- C4: a `solo` expense contributes its amount to the currency total and to
the payer's per-person total, but leaves the debt computation unchanged
wherever it is inserted; a list of only `solo` expenses yields no debts. -/
theorem C4_solo_exclusion (e : Expense) (he : e.split = SplitMode.solo) :
    (∀ es1 es2 : List Expense,
      AmountRec.get (computeTotals (es1 ++ e :: es2)).1 e.currency
        = AmountRec.get (computeTotals (es1 ++ es2)).1 e.currency + e.amount ∧
      PersonRec.get2 (computeTotals (es1 ++ e :: es2)).2 e.paid_by e.currency
        = PersonRec.get2 (computeTotals (es1 ++ es2)).2 e.paid_by e.currency + e.amount ∧
      computeDebts (es1 ++ e :: es2) = computeDebts (es1 ++ es2)) ∧
    (∀ es : List Expense, (∀ x ∈ es, x.split = SplitMode.solo) → computeDebts es = []) := by
  constructor
  · intro es1 es2
    refine ⟨?_, ?_, ?_⟩
    · have hb : (e.currency == e.currency) = true := by simp
      rw [computeTotals_totals_get, computeTotals_totals_get, List.filter_append,
        List.filter_append, List.filter_cons, if_pos hb]
      simp only [amountSum, List.map_append, List.sum_append, List.map_cons, List.sum_cons]
      ring
    · have hb : ((e.paid_by == e.paid_by) && (e.currency == e.currency)) = true := by simp
      rw [computeTotals_perPerson_get2, computeTotals_perPerson_get2, List.filter_append,
        List.filter_append, List.filter_cons, if_pos hb]
      simp only [amountSum, List.map_append, List.sum_append, List.map_cons, List.sum_cons]
      ring
    · rw [computeDebts, computeDebts, computeDebtsWith, computeDebtsWith,
        groupByCurrency_insert_solo e he]
  · intro es hsolo
    rw [computeDebts, computeDebtsWith, groupByCurrency_all_solo es hsolo]
    rfl

/-- C4 witness: Scenario B — the 40 EUR solo expense satisfies the solo
hypothesis and a list holding only it yields no debts. -/
theorem C4_witness :
    expSolo.split = SplitMode.solo ∧ computeDebts [expSolo] = [] := by
  refine ⟨rfl, ?_⟩
  refine (C4_solo_exclusion expSolo rfl).2 [expSolo] ?_
  intro x hx
  simp only [List.mem_singleton] at hx
  subst hx
  rfl

/-- C5: inserting an expense of a different currency anywhere in the list
changes neither the total of currency `B`, nor any per-person total in `B`,
nor the debts in `B`. -/
theorem C5_currency_isolation (e : Expense) (B : String) (hB : ¬ e.currency = B)
    (es1 es2 : List Expense) :
    AmountRec.get (computeTotals (es1 ++ e :: es2)).1 B
      = AmountRec.get (computeTotals (es1 ++ es2)).1 B ∧
    (∀ p, PersonRec.get2 (computeTotals (es1 ++ e :: es2)).2 p B
      = PersonRec.get2 (computeTotals (es1 ++ es2)).2 p B) ∧
    (computeDebts (es1 ++ e :: es2)).filter (fun d => d.currency == B)
      = (computeDebts (es1 ++ es2)).filter (fun d => d.currency == B) := by
  have hb : ¬ (e.currency == B) = true := by simp [hB]
  refine ⟨?_, ?_, ?_⟩
  · rw [computeTotals_totals_get, computeTotals_totals_get, List.filter_append,
      List.filter_append, List.filter_cons, if_neg hb]
  · intro p
    have hb2 : ¬ ((e.paid_by == p) && (e.currency == B)) = true := by simp [hB]
    rw [computeTotals_perPerson_get2, computeTotals_perPerson_get2, List.filter_append,
      List.filter_append, List.filter_cons, if_neg hb2]
  · rw [computeDebts, computeDebts, computeDebtsWith_filter_currency,
      computeDebtsWith_filter_currency]
    congr 1
    have hb3 : ¬ ((e.split == SplitMode.equal) && (e.currency == B)) = true := by simp [hB]
    simp only [eqFilter, List.filter_append, List.filter_cons, if_neg hb3]

/-- C5 witness: inserting a USD expense leaves the TRY totals, per-person
totals and TRY debts unchanged. -/
theorem C5_witness :
    ¬ expUSD.currency = "TRY" ∧
    (AmountRec.get (computeTotals [expUSD]).1 "TRY"
        = AmountRec.get (computeTotals []).1 "TRY" ∧
      (∀ p, PersonRec.get2 (computeTotals [expUSD]).2 p "TRY"
        = PersonRec.get2 (computeTotals []).2 p "TRY") ∧
      (computeDebts [expUSD]).filter (fun d => d.currency == "TRY")
        = (computeDebts []).filter (fun d => d.currency == "TRY")) :=
  ⟨by decide, C5_currency_isolation expUSD "TRY" (by decide) [] []⟩

/-- C7: Scenario A — with the 100 TRY (zeynep) and 0 TRY (bartu) equal-split
expenses, the TRY total is 100 and the single debt is bartu owing zeynep 50
TRY. -/
theorem C7_scenario_A :
    AmountRec.get (summary esA).totals "TRY" = 100 ∧
    (summary esA).debts
      = [{ dFrom := "bartu", dTo := "zeynep", amount := 50, currency := "TRY" }] := by
  constructor <;>
    norm_num +decide [summary, computeTotals, computeDebts, computeDebtsWith,
      groupByCurrency, addToGroup, debtsForGroupWith, paidMap, paidInit, AmountRec.add,
      AmountRec.get, epsilon, mkExp, List.find?, PEOPLE, esA, expZ, expB]

/-- C9: Scenario E — the empty expense list yields empty totals, empty
per-person totals and no debts, with no error. -/
theorem C9_empty_expenses :
    summary [] = { totals := [], perPerson := [], debts := [] } := rfl

/-- C6: permuting the expense list changes neither the currency totals nor
the per-person totals (as mappings) nor the set of emitted debt tuples. -/
theorem C6_order_independence {es1 es2 : List Expense} (h : es1.Perm es2) :
    (∀ c, AmountRec.get (computeTotals es1).1 c = AmountRec.get (computeTotals es2).1 c) ∧
    (∀ p c, PersonRec.get2 (computeTotals es1).2 p c
      = PersonRec.get2 (computeTotals es2).2 p c) ∧
    (∀ d : Debt, d ∈ computeDebts es1 ↔ d ∈ computeDebts es2) := by
  have hsum : ∀ p : Expense → Bool,
      amountSum (es1.filter p) = amountSum (es2.filter p) :=
    fun p => ((h.filter p).map Expense.amount).sum_eq
  refine ⟨?_, ?_, ?_⟩
  · intro c
    rw [computeTotals_totals_get, computeTotals_totals_get]
    exact hsum _
  · intro p c
    rw [computeTotals_perPerson_get2, computeTotals_perPerson_get2]
    exact hsum _
  · intro d
    rw [computeDebts, computeDebts, mem_computeDebtsWith_iff, mem_computeDebtsWith_iff]
    have hpaid : ∀ p, paidSum p (eqFilter d.currency es1)
        = paidSum p (eqFilter d.currency es2) := by
      intro p
      exact (((h.filter
        (fun e => e.split == SplitMode.equal && e.currency == d.currency)).filter
          (fun e => e.paid_by == p)).map Expense.amount).sum_eq
    have hAS : amountSum (eqFilter d.currency es1) = amountSum (eqFilter d.currency es2) :=
      hsum (fun e => e.split == SplitMode.equal && e.currency == d.currency)
    rw [debtsForGroupWith_congr PEOPLE d.currency hpaid hAS]

/-- C6 witness: swapping the two Scenario A expenses. -/
theorem C6_witness :
    esA.Perm [expB, expZ] ∧
    ((∀ c, AmountRec.get (computeTotals esA).1 c
        = AmountRec.get (computeTotals [expB, expZ]).1 c) ∧
      (∀ p c, PersonRec.get2 (computeTotals esA).2 p c
        = PersonRec.get2 (computeTotals [expB, expZ]).2 p c) ∧
      (∀ d : Debt, d ∈ computeDebts esA ↔ d ∈ computeDebts [expB, expZ])) := by
  have hperm : esA.Perm [expB, expZ] := List.Perm.swap expB expZ []
  exact ⟨hperm, C6_order_independence hperm⟩

/-- C8: every emitted debt has a strictly positive amount and a debtor whose
paid total undercuts the per-head share by more than epsilon; hence a
participant with `diff ≥ -epsilon` never appears as a debtor. -/
theorem C8_positive_debts_only_underpayers (es : List Expense) (d : Debt)
    (hd : d ∈ computeDebts es) :
    0 < d.amount ∧
    paidSum d.dFrom (eqFilter d.currency es) - perHeadOf d.currency es < -epsilon :=
  ⟨(mem_computeDebts_struct hd).2.2.2.1, (mem_computeDebts_struct hd).2.2.2.2.1⟩

/-- C8 witness: the Scenario A debt is emitted, is positive, and its debtor
under-paid beyond epsilon. -/
theorem C8_witness :
    ({ dFrom := "bartu", dTo := "zeynep", amount := 50, currency := "TRY" } : Debt)
        ∈ computeDebts esA ∧
    (0 < ({ dFrom := "bartu", dTo := "zeynep", amount := 50, currency := "TRY" } : Debt).amount ∧
      paidSum "bartu" (eqFilter "TRY" esA) - perHeadOf "TRY" esA < -epsilon) := by
  have hmem : ({ dFrom := "bartu", dTo := "zeynep", amount := 50, currency := "TRY" } : Debt)
      ∈ computeDebts esA := by
    norm_num +decide [computeDebts, computeDebtsWith, groupByCurrency, addToGroup,
      debtsForGroupWith, paidMap, paidInit, AmountRec.add, AmountRec.get, epsilon, mkExp,
      List.find?, PEOPLE, esA, expZ, expB]
  exact ⟨hmem, C8_positive_debts_only_underpayers esA _ hmem⟩

/-- C10: with the fixed two-person participant set and every payer drawn
from it, each currency yields at most one debt, debtor and creditor are
always distinct, and every participant under-paying beyond epsilon produces
a debt — the creditor lookup never fails, so the silent-drop branch is
unreachable. -/
theorem C10_no_silent_drop (es : List Expense)
    (hpb : ∀ e ∈ es, e.paid_by ∈ PEOPLE) :
    (∀ c, ((computeDebts es).filter (fun d => d.currency == c)).length ≤ 1) ∧
    (∀ d ∈ computeDebts es, d.dFrom ≠ d.dTo) ∧
    (∀ c p, p ∈ PEOPLE → paidSum p (eqFilter c es) - perHeadOf c es < -epsilon →
      ∃ d ∈ computeDebts es, d.currency = c ∧ d.dFrom = p) := by
  have hsplit : ∀ c : String,
      paidSum "zeynep" (eqFilter c es) + paidSum "bartu" (eqFilter c es)
        = amountSum (eqFilter c es) :=
    fun c => paidSum_split _ (fun e he => hpb e (mem_of_mem_eqFilter he))
  have heps := epsilon_pos
  refine ⟨?_, ?_, ?_⟩
  · intro c
    rw [computeDebts, computeDebtsWith_filter_currency, dfg_PEOPLE_eq]
    by_cases hz :
      paidSum "zeynep" (eqFilter c es) - amountSum (eqFilter c es) / 2 < -epsilon <;>
    by_cases hb :
      paidSum "bartu" (eqFilter c es) - amountSum (eqFilter c es) / 2 < -epsilon
    · exfalso
      have := hsplit c
      linarith
    · simp only [if_pos hz, if_neg hb, List.append_nil]
      split_ifs <;> simp
    · simp only [if_neg hz, if_pos hb, List.nil_append]
      split_ifs <;> simp
    · simp [hz, hb]
  · intro d hd
    exact Ne.symm (mem_computeDebts_struct hd).2.2.1
  · intro c p hp hdiff
    rw [perHeadOf_eq] at hdiff
    have hT := hsplit c
    simp only [PEOPLE, List.mem_cons, List.not_mem_nil, or_false] at hp
    rcases hp with hp | hp
    · subst hp
      have hcred : amountSum (eqFilter c es) / 2 < paidSum "bartu" (eqFilter c es) := by
        linarith
      refine ⟨Debt.mk "zeynep" "bartu"
        (abs (paidSum "zeynep" (eqFilter c es) - amountSum (eqFilter c es) / 2)) c,
        ?_, rfl, rfl⟩
      rw [computeDebts, mem_computeDebtsWith_iff]
      show _ ∈ debtsForGroupWith PEOPLE c (eqFilter c es)
      rw [dfg_PEOPLE_eq]
      simp [hdiff, hcred]
    · subst hp
      have hcred : amountSum (eqFilter c es) / 2 < paidSum "zeynep" (eqFilter c es) := by
        linarith
      refine ⟨Debt.mk "bartu" "zeynep"
        (abs (paidSum "bartu" (eqFilter c es) - amountSum (eqFilter c es) / 2)) c,
        ?_, rfl, rfl⟩
      rw [computeDebts, mem_computeDebtsWith_iff]
      show _ ∈ debtsForGroupWith PEOPLE c (eqFilter c es)
      rw [dfg_PEOPLE_eq]
      simp [hdiff, hcred]

/-- C10 witness: Scenario A satisfies the payer hypothesis, and the
conclusions follow by applying the theorem to it. -/
theorem C10_witness :
    (∀ e ∈ esA, e.paid_by ∈ PEOPLE) ∧
    ((∀ c, ((computeDebts esA).filter (fun d => d.currency == c)).length ≤ 1) ∧
      (∀ d ∈ computeDebts esA, d.dFrom ≠ d.dTo) ∧
      (∀ c p, p ∈ PEOPLE → paidSum p (eqFilter c esA) - perHeadOf c esA < -epsilon →
        ∃ d ∈ computeDebts esA, d.currency = c ∧ d.dFrom = p)) := by
  have hpb : ∀ e ∈ esA, e.paid_by ∈ PEOPLE := by decide
  exact ⟨hpb, C10_no_silent_drop esA hpb⟩

end Twofold
